import Mathlib

/-
  Verification development for the when-ts synchronous rule-based state
  machine engine (src/stateMachine.ts and its HistoryManager).

  States are modelled as JavaScript objects: finite partial maps from
  string keys to values, here `String -> Option V`.  Object.assign is
  modelled pointwise, `delete` as key stripping.  The HistoryManager and
  StateMachine classes are modelled as explicit state-passing functions
  over `History V` and `Machine V`.  JavaScript numbers used as tick
  counters are modelled as `Int` (the code can drive the tick negative),
  `Infinity` arguments and the unlimited history cap as `Option Nat`
  with `none` standing for Infinity.  Actions may, besides returning a
  state patch, invoke machine methods; the two methods reachable from an
  action in the source, `exit` and `history.rewind`, are modelled as an
  explicit command list executed before the returned patch is merged.
-/

namespace WhenTS

/-- A JavaScript object: a partial map from string keys to values. -/
def Obj (V : Type) : Type := String → Option V

/-- The empty object, Object.create(null). -/
def emptyObj {V : Type} : Obj V := fun _ => none

/-- First-some choice used to model key shadowing in Object.assign. -/
def jsOr {V : Type} : Option V → Option V → Option V
  | some v, _ => some v
  | none, b => b

/-- Object.assign target source, pointwise: keys of the source win. -/
def assign {V : Type} (a b : Obj V) : Obj V := fun k => jsOr (b k) (a k)

/-- An object with a single key. -/
def singleObj {V : Type} (key : String) (v : V) : Obj V :=
  fun k => if k = key then some v else none

/-- Models the loop `for k of ks: delete p[k]` over an object p. -/
def stripKeys {V : Type} (ks : List String) (p : Obj V) : Obj V :=
  fun k => if k ∈ ks then none else p k

/-- An input binding: a state key, the instance property it reads, and an
optional transform, as registered by the input decorator. -/
structure InputMapping (V : Type) where
  key : String
  propertyKey : String
  transform : Option (V → V)

/-- Apply the optional transform of an input binding. -/
def applyTransform {V : Type} (t : Option (V → V)) (v : V) : V :=
  match t with
  | some f => f v
  | none => v

/-- The HistoryManager state.  instanceEnv models the live instance
properties read by collectInputs, indexed by how many collections have
happened so far (sampleIdx). -/
structure History (V : Type) where
  instanceEnv : Nat → String → V
  sampleIdx : Nat
  inputs : List (InputMapping V)
  inputKeys : List String
  initialState : Obj V
  records : List (Obj V)
  tick : Int
  nextState : Obj V
  maxHistory : Option Nat

/-- The object produced by one _collectInputs pass: for each binding,
inputs[key] := transform(instance[propertyKey]). -/
def inputsObj {V : Type} (ims : List (InputMapping V)) (env : String → V) : Obj V :=
  ims.foldl
    (fun acc im =>
      assign acc (singleObj im.key (applyTransform im.transform (env im.propertyKey))))
    emptyObj

/-- HistoryManager._collectInputs at the current sample index. -/
def collectInputs {V : Type} (h : History V) : Obj V :=
  inputsObj h.inputs (h.instanceEnv h.sampleIdx)

/-- HistoryManager.currentState: the last record, else the pending state. -/
def currentState {V : Type} (h : History V) : Obj V :=
  (h.records.getLast?).getD h.nextState

/-- HistoryManager._beginTick: pending state := assign({}, last record,
freshly collected inputs); one sample is consumed. -/
def beginTick {V : Type} (h : History V) : History V :=
  { h with
    nextState := assign (assign emptyObj ((h.records.getLast?).getD emptyObj)) (collectInputs h),
    sampleIdx := h.sampleIdx + 1 }

/-- HistoryManager._mutateTick: strip input-bound keys from the patch and
merge the rest into the pending state. -/
def mutateTick {V : Type} (h : History V) (p : Obj V) : History V :=
  { h with nextState := assign h.nextState (stripKeys h.inputKeys p) }

/-- The trim after the push in _nextTick: drop the oldest records when
the list exceeds the cap, with none standing for an unlimited cap. -/
def trimRecords {V : Type} (lim : Option Nat) (rs : List (Obj V)) : List (Obj V) :=
  match lim with
  | none => rs
  | some l => if l < rs.length then rs.drop (rs.length - l) else rs

/-- HistoryManager._nextTick: push the pending state, trim to the
retention limit, begin a fresh pending tick, increment the tick. -/
def nextTick {V : Type} (h : History V) : History V :=
  let h2 := { h with records := trimRecords h.maxHistory (h.records ++ [h.nextState]) }
  let h3 := beginTick h2
  { h3 with tick := h3.tick + 1 }

/-- The guard n <= this._maxHistory, with none standing for Infinity. -/
def finiteWithinLimit (n : Nat) : Option Nat → Bool
  | none => true
  | some l => n ≤ l

/-- HistoryManager.rewind n mutate, with n = none standing for
rewind(Infinity).  The finite in-limit branch is splice(n, len - n)
(keep the first n records) and tick := tick - n; the other branch
discards everything, zeroes the tick and reseeds the initial state.
The optional mutation overwrites the last record; with no record left
the array write at index -1 changes no element. -/
def rewind {V : Type} (h : History V) (n : Option Nat) (mutate : Option (Obj V)) : History V :=
  let h1 :=
    match n with
    | some m =>
      if finiteWithinLimit m h.maxHistory then
        { h with records := h.records.take m, tick := h.tick - (m : Int) }
      else
        { h with records := [h.initialState], tick := 0 }
    | none => { h with records := [h.initialState], tick := 0 }
  let h2 :=
    match mutate with
    | some mu =>
      if h1.records.isEmpty then h1
      else
        { h1 with
          records := h1.records.set (h1.records.length - 1)
            (assign (assign emptyObj (currentState h1)) mu) }
    | none => h1
  beginTick h2

/-- HistoryManager.clear. -/
def clearHistory {V : Type} (h : History V) : History V :=
  rewind h none none

/-- The guard limit < this._maxHistory in the limit setter. -/
def ltLimit (n : Nat) : Option Nat → Bool
  | none => true
  | some l => n < l

/-- The limit setter: clamp below at 1, trim the oldest records when
lowering, store the new cap. -/
def setLimit {V : Type} (h : History V) (limit : Int) : History V :=
  let lim : Nat := if limit < 1 then 1 else limit.toNat
  let h1 :=
    if ltLimit lim h.maxHistory then
      { h with records := h.records.drop (h.records.length - lim) }
    else h
  { h1 with maxHistory := some lim }

/-- The HistoryManager constructor: merge the supplied initial state with
a first input collection, copy it into the pending state, and commit the
first tick. -/
def mkHistory {V : Type} (env : Nat → String → V) (initialState : Obj V)
    (inputs : List (InputMapping V)) : History V :=
  let h0 : History V :=
    { instanceEnv := env, sampleIdx := 0, inputs := inputs,
      inputKeys := inputs.map (fun im => im.key),
      initialState := initialState, records := [], tick := 0,
      nextState := emptyObj, maxHistory := none }
  let merged := assign (assign emptyObj initialState) (collectInputs h0)
  let h1 :=
    { h0 with sampleIdx := h0.sampleIdx + 1, initialState := merged,
              nextState := assign emptyObj merged }
  nextTick h1

/-- A machine method invocable from inside an action body: exit with an
optional state patch, or history.rewind. -/
inductive Cmd (V : Type) where
  | exitCmd (arg : Option (Obj V))
  | rewindCmd (n : Option Nat) (mutate : Option (Obj V))

/-- The result of running an action body: the method calls it made, in
order, and the value it returned (none models undefined). -/
structure ActRes (V : Type) where
  cmds : List (Cmd V)
  ret : Option (Obj V)

/-- A program entry: condition, action, and a numeric or functional
priority, in registration order. -/
structure ProgEntry (V : Type) where
  cond : Obj V → Bool
  action : Obj V → ActRes V
  priority : Sum Int (Obj V → Option Int)

/-- The StateMachine state: program table, history, optional exit state. -/
structure Machine (V : Type) where
  program : List (ProgEntry V)
  history : History V
  exitState : Option (Obj V)

/-- StateMachine.exit and history.rewind as invoked from an action. -/
def applyCmd {V : Type} (m : Machine V) : Cmd V → Machine V
  | Cmd.exitCmd arg =>
    match arg with
    | some es =>
      { m with exitState := some (assign (assign emptyObj (currentState m.history)) es) }
    | none => { m with exitState := some (currentState m.history) }
  | Cmd.rewindCmd n mu => { m with history := rewind m.history n mu }

/-- Priority resolution: a function form is called with the tick-start
state; a missing result (undefined, NaN and other falsy values) is
normalised to 0 by the disjunction with 0 in the source. -/
def resolvePriority {V : Type} (s : Obj V) : Sum Int (Obj V → Option Int) → Int
  | Sum.inl n => n
  | Sum.inr f => (f s).getD 0

/-- A program entry with its priority resolved and its registration
index recorded. -/
structure SEntry (V : Type) where
  idx : Nat
  pri : Int
  cond : Obj V → Bool
  action : Obj V → ActRes V

/-- Resolve every priority against the tick-start state, tagging each
entry with its registration index. -/
def resolveEntries {V : Type} (s : Obj V) : List (ProgEntry V) → Nat → List (SEntry V)
  | [], _ => []
  | e :: rest, i =>
    { idx := i, pri := resolvePriority s e.priority, cond := e.cond, action := e.action }
      :: resolveEntries s rest (i + 1)

/-- Stable insertion step: the new element goes after every element of
no larger priority, modelling the stable ascending comparator sort. -/
def insertEntry {V : Type} (x : SEntry V) : List (SEntry V) → List (SEntry V)
  | [] => [x]
  | y :: ys => if y.pri ≤ x.pri then y :: insertEntry x ys else x :: y :: ys

/-- The stable ascending sort of the resolved entries. -/
def sortEntries {V : Type} (l : List (SEntry V)) : List (SEntry V) :=
  l.foldl (fun acc x => insertEntry x acc) []

/-- Run one action body against the machine: perform its method calls,
then merge a returned patch into the pending tick. -/
def runActRes {V : Type} (m : Machine V) (r : ActRes V) : Machine V :=
  let m1 := r.cmds.foldl applyCmd m
  match r.ret with
  | some p => { m1 with history := mutateTick m1.history p }
  | none => m1

/-- The code after the entry loop in step: commit the tick, and on a
zero-fire tick set the exit state to the just-committed state. -/
def finishTick {V : Type} (m : Machine V) (fired : Nat) : Machine V × Nat :=
  let m1 := { m with history := nextTick m.history }
  let m2 :=
    if fired = 0 then { m1 with exitState := some (currentState m1.history) } else m1
  (m2, fired)

/-- The entry loop of step over the sorted entries: abort on a mid-tick
tick change without exit, break to the commit on an exit state, else
evaluate the condition and run the action against the live current
state. -/
def stepLoop {V : Type} (t0 : Int) : Machine V → Nat → List (SEntry V) → Machine V × Nat
  | m, fired, [] => finishTick m fired
  | m, fired, e :: rest =>
    if m.history.tick ≠ t0 ∧ m.exitState.isNone then (m, max 1 fired)
    else if m.exitState.isSome then finishTick m fired
    else if e.cond (currentState m.history) then
      stepLoop t0 (runActRes m (e.action (currentState m.history))) (fired + 1) rest
    else
      stepLoop t0 m fired rest

/-- The body of step after the bootstrap: capture the tick and state at
start, resolve and sort the program, then run the entry loop. -/
def stepBody {V : Type} (m0 : Machine V) : Machine V × Nat :=
  stepLoop m0.history.tick m0 0
    (sortEntries (resolveEntries (currentState m0.history) m0.program 0))

/-- StateMachine.step: bootstrap the first commit when the tick is below
1, then run the body against the captured tick and state. -/
def step {V : Type} (m : Machine V) : Machine V × Nat :=
  stepBody (if m.history.tick < 1 then { m with history := nextTick m.history } else m)

/-- Iterate step, discarding the fired counts. -/
def iterSteps {V : Type} : Nat → Machine V → Machine V
  | 0, m => m
  | Nat.succ n, m => iterSteps n (step m).1

/-- StateMachine.run with explicit fuel bounding the number of step
calls; none models running out of fuel with the loop still going. -/
def runAux {V : Type} (forever : Bool) : Nat → Machine V → Option (Machine V)
  | 0, m => if m.exitState.isSome then some m else none
  | Nat.succ f, m =>
    if m.exitState.isSome then some m
    else
      let r := step m
      if forever = false ∧ r.2 = 0 then some r.1
      else runAux forever f r.1

/-- The value run returns: the exit state if set, else the current state. -/
def runResult {V : Type} (m : Machine V) : Obj V :=
  m.exitState.getD (currentState m.history)

/-- StateMachine.reset: clear the exit state and rewind to the beginning
with the replacement initial state passed as the rewind mutation. -/
def reset {V : Type} (m : Machine V) (initialState : Option (Obj V)) : Machine V :=
  let ini := initialState.getD m.history.initialState
  { m with exitState := none, history := rewind m.history none (some ini) }

/-- The StateMachine constructor with an already-resolved program table. -/
def mkMachine {V : Type} (program : List (ProgEntry V)) (env : Nat → String → V)
    (initialState : Obj V) (inputs : List (InputMapping V)) : Machine V :=
  { program := program, history := mkHistory env initialState inputs, exitState := none }

/-- A constant instance environment for machines without inputs. -/
def envZero : Nat → String → Int := fun _ _ => 0

/-- The one-field counter state of the concrete scenarios. -/
def counterObj (n : Int) : Obj Int := singleObj "counter" n

/-- Read the counter field, defaulting to 0. -/
def cget (s : Obj Int) : Int := (s "counter").getD 0

/-- Scenario A entry: condition always true, action increments the
counter, priority 0. -/
def incEntry : ProgEntry Int :=
  { cond := fun _ => true,
    action := fun s => { cmds := [], ret := some (singleObj "counter" (cget s + 1)) },
    priority := Sum.inl 0 }

/-- Scenario B extra entry: condition counter at least 3, action calls
exit with no argument, priority 1. -/
def haltEntry : ProgEntry Int :=
  { cond := fun s => decide (3 ≤ cget s),
    action := fun _ => { cmds := [Cmd.exitCmd none], ret := none },
    priority := Sum.inl 1 }

/-- The scenario A machine. -/
def machineA : Machine Int := mkMachine [incEntry] envZero (counterObj 0) []

/-- The scenario B machine. -/
def machineB : Machine Int := mkMachine [incEntry, haltEntry] envZero (counterObj 0) []

/-- A well-formed retention cap: unlimited, or at least one record.  The
limit setter clamps every written value to this. -/
def limOk : Option Nat → Bool
  | none => true
  | some 0 => false
  | some (_ + 1) => true

/-- Strict ordering on resolved entries: smaller priority first, ties
broken by smaller registration index. -/
def entryLexLt {V : Type} (a b : SEntry V) : Prop :=
  a.pri < b.pri ∨ (a.pri = b.pri ∧ a.idx < b.idx)

/-- The machine shape reached by scenario A after n committed steps:
program unchanged, no exit, no inputs, unlimited retention, tick n + 1,
n + 1 records ending in the counter-n state, which also seeds the
pending state. -/
def InvA (n : Nat) (m : Machine Int) : Prop :=
  m.program = [incEntry] ∧ m.exitState = none ∧
  m.history.inputKeys = [] ∧ m.history.inputs = [] ∧
  m.history.maxHistory = none ∧
  m.history.tick = (n : Int) + 1 ∧
  m.history.records.length = n + 1 ∧
  m.history.records.getLast? = some (counterObj n) ∧
  m.history.nextState = counterObj n

/-- A two-commit history used to exhibit the rewind overshoot. -/
def histTwo : History Int := nextTick (mkHistory envZero (counterObj 0) [])

/-- Scenario A after four committed steps: tick 5, five records. -/
def machineA4 : Machine Int := iterSteps 4 machineA

/-- A machine with an empty program used for the reset scenario. -/
def machineX : Machine Int := mkMachine [] envZero (counterObj 0) []

/-- The reset scenario: machineX reset with a counter-1 initial state. -/
def machineReset : Machine Int := reset machineX (some (counterObj 1))

/-- A mid-loop machine state for the abort scenario: the history tick no
longer matches a captured tick of 4 and no exit state is set. -/
def abortMachine : Machine Int :=
  { program := [],
    history :=
      { instanceEnv := envZero, sampleIdx := 0, inputs := [], inputKeys := [],
        initialState := counterObj 0, records := [counterObj 0], tick := 5,
        nextState := counterObj 0, maxHistory := none },
    exitState := none }

/-- A throwaway resolved entry fed to the abort scenario loop. -/
def abortEntry : SEntry Int :=
  { idx := 0, pri := 0, cond := fun _ => true,
    action := fun _ => { cmds := [], ret := none } }

/-- A mid-loop machine state for the exit scenario: an action has staged
counter 4 into the pending state and set an exit state holding
counter 3. -/
def exitMidMachine : Machine Int :=
  { program := [],
    history :=
      { instanceEnv := envZero, sampleIdx := 0, inputs := [], inputKeys := [],
        initialState := counterObj 0, records := [counterObj 3], tick := 4,
        nextState := counterObj 4, maxHistory := none },
    exitState := some (counterObj 3) }

/-- An instance environment whose property p counts the samples taken. -/
def envCount : Nat → String → Int := fun n _ => (n : Int)

/-- The input-binding scenario: key i is bound to property p through a
transform adding ten. -/
def inputHist : History Int :=
  mkHistory envCount (singleObj "i" 0)
    [{ key := "i", propertyKey := "p", transform := some (fun v => v + 10) }]

/- ------------------------------------------------------------------ -/
/- Helper lemmas.                                                      -/
/- ------------------------------------------------------------------ -/

theorem jsOr_none_right {V : Type} (a : Option V) : jsOr a none = a := by
  cases a <;> rfl

theorem assign_emptyObj_left {V : Type} (x : Obj V) : assign emptyObj x = x := by
  funext k
  exact jsOr_none_right (x k)

theorem assign_emptyObj_right {V : Type} (x : Obj V) : assign x emptyObj = x := rfl

theorem stripKeys_nil {V : Type} (p : Obj V) : stripKeys [] p = p := by
  funext k
  simp [stripKeys]

theorem stripKeys_mem {V : Type} (ks : List String) (p : Obj V) (k : String)
    (hk : k ∈ ks) : stripKeys ks p k = none := by
  simp [stripKeys, hk]

theorem assign_counterObj (n v : Int) :
    assign (counterObj n) (singleObj "counter" v) = counterObj v := by
  funext k
  by_cases hk : k = "counter" <;> simp [assign, counterObj, singleObj, jsOr, hk]

theorem trimRecords_getLast? {V : Type} (lim : Option Nat) (rs : List (Obj V))
    (a : Obj V) (hl : limOk lim = true) :
    (trimRecords lim (rs ++ [a])).getLast? = some a := by
  match lim with
  | none => simp [trimRecords, List.getLast?_concat]
  | some 0 => simp [limOk] at hl
  | some (l + 1) =>
    simp only [trimRecords]
    split
    · rw [List.drop_append_of_le_length, List.getLast?_concat]
      simp only [List.length_append, List.length_cons, List.length_nil]
      omega
    · exact List.getLast?_concat rs

theorem nextTick_tick {V : Type} (h : History V) : (nextTick h).tick = h.tick + 1 := rfl

theorem nextTick_maxHistory {V : Type} (h : History V) :
    (nextTick h).maxHistory = h.maxHistory := rfl

theorem currentState_nextTick {V : Type} (h : History V)
    (hl : limOk h.maxHistory = true) : currentState (nextTick h) = h.nextState := by
  unfold currentState nextTick beginTick
  simp only
  rw [trimRecords_getLast? h.maxHistory h.records h.nextState hl]
  rfl

theorem stepLoop_of_exit {V : Type} (t0 : Int) (m : Machine V) (fired : Nat)
    (l : List (SEntry V)) (hx : m.exitState.isSome = true) :
    stepLoop t0 m fired l = finishTick m fired := by
  obtain ⟨prog, hist, ex⟩ := m
  cases ex with
  | none => simp at hx
  | some es => cases l <;> simp [stepLoop]

theorem finishTick_snd_eq_zero_isSome {V : Type} (m : Machine V) (fired : Nat)
    (hz : (finishTick m fired).2 = 0) : (finishTick m fired).1.exitState.isSome = true := by
  have hf : fired = 0 := hz
  subst hf
  simp [finishTick]

theorem stepLoop_snd_eq_zero_isSome {V : Type} (t0 : Int) :
    ∀ (l : List (SEntry V)) (m : Machine V) (fired : Nat),
      (stepLoop t0 m fired l).2 = 0 → (stepLoop t0 m fired l).1.exitState.isSome = true := by
  intro l
  induction l with
  | nil =>
    intro m fired hz
    exact finishTick_snd_eq_zero_isSome m fired hz
  | cons e rest ih =>
    intro m fired hz
    rw [stepLoop] at hz ⊢
    by_cases h1 : m.history.tick ≠ t0 ∧ m.exitState.isNone = true
    · rw [if_pos h1] at hz
      exfalso
      have hle : 1 ≤ max 1 fired := le_max_left 1 fired
      simp only at hz
      omega
    · rw [if_neg h1] at hz ⊢
      by_cases h2 : m.exitState.isSome = true
      · rw [if_pos h2] at hz ⊢
        exact finishTick_snd_eq_zero_isSome m fired hz
      · rw [if_neg h2] at hz ⊢
        by_cases h3 : e.cond (currentState m.history) = true
        · rw [if_pos h3] at hz ⊢
          exact ih _ _ hz
        · rw [if_neg h3] at hz ⊢
          exact ih _ _ hz

theorem step_snd_eq_zero_isSome {V : Type} (m : Machine V)
    (hz : (step m).2 = 0) : (step m).1.exitState.isSome = true := by
  unfold step at hz ⊢
  exact stepLoop_snd_eq_zero_isSome _ _ _ _ hz

theorem runAux_of_isSome {V : Type} (forever : Bool) (f : Nat) (m : Machine V)
    (hx : m.exitState.isSome = true) : runAux forever f m = some m := by
  cases f <;> simp [runAux, hx]

theorem assign_apply_isSome {V : Type} (a b : Obj V) (k : String)
    (hs : (b k).isSome = true) : assign a b k = b k := by
  obtain ⟨v, hv⟩ := Option.isSome_iff_exists.mp hs
  simp [assign, hv, jsOr]

theorem mutateTick_nextState_input {V : Type} (h : History V) (p : Obj V) (k : String)
    (hk : k ∈ h.inputKeys) : (mutateTick h p).nextState k = h.nextState k := by
  simp [mutateTick, assign, stripKeys_mem h.inputKeys p k hk, jsOr]

theorem foldl_mutateTick_spec {V : Type} :
    ∀ (ps : List (Obj V)) (h : History V),
      (ps.foldl mutateTick h).inputKeys = h.inputKeys ∧
      (ps.foldl mutateTick h).maxHistory = h.maxHistory ∧
      (∀ k, k ∈ h.inputKeys → (ps.foldl mutateTick h).nextState k = h.nextState k) := by
  intro ps
  induction ps with
  | nil => intro h; exact ⟨rfl, rfl, fun _ _ => rfl⟩
  | cons p rest ih =>
    intro h
    simp only [List.foldl_cons]
    obtain ⟨h1, h2, h3⟩ := ih (mutateTick h p)
    refine ⟨h1, h2, ?_⟩
    intro k hk
    have hk' : k ∈ (mutateTick h p).inputKeys := hk
    rw [h3 k hk', mutateTick_nextState_input h p k hk]

theorem foldl_inputsObj_isSome {V : Type} (env : String → V) (k : String) :
    ∀ (ims : List (InputMapping V)) (acc : Obj V),
      ((acc k).isSome = true ∨ k ∈ ims.map (fun im => im.key)) →
      ((ims.foldl
          (fun acc im =>
            assign acc (singleObj im.key (applyTransform im.transform (env im.propertyKey))))
          acc) k).isSome = true := by
  intro ims
  induction ims with
  | nil =>
    intro acc hk
    rcases hk with hk | hk
    · simpa using hk
    · simp at hk
  | cons im rest ih =>
    intro acc hk
    simp only [List.foldl_cons]
    apply ih
    by_cases hkey : k = im.key
    · left
      simp [assign, singleObj, hkey, jsOr]
    · rcases hk with hk | hk
      · left
        simpa [assign, singleObj, hkey, jsOr] using hk
      · simp only [List.map_cons, List.mem_cons] at hk
        rcases hk with hk | hk
        · exact absurd hk hkey
        · exact Or.inr hk

theorem inputsObj_isSome {V : Type} (ims : List (InputMapping V)) (env : String → V)
    (k : String) (hk : k ∈ ims.map (fun im => im.key)) :
    ((inputsObj ims env) k).isSome = true :=
  foldl_inputsObj_isSome env k ims emptyObj (Or.inr hk)

theorem beginTick_nextState_input {V : Type} (h : History V) (k : String)
    (hk : k ∈ h.inputs.map (fun im => im.key)) :
    (beginTick h).nextState k = collectInputs h k := by
  show assign (assign emptyObj ((h.records.getLast?).getD emptyObj)) (collectInputs h) k
    = collectInputs h k
  exact assign_apply_isSome _ _ k (inputsObj_isSome h.inputs (h.instanceEnv h.sampleIdx) k hk)

theorem mem_insertEntry {V : Type} (x z : SEntry V) :
    ∀ l : List (SEntry V), z ∈ insertEntry x l → z = x ∨ z ∈ l := by
  intro l
  induction l with
  | nil =>
    intro hz
    simp [insertEntry] at hz
    exact Or.inl hz
  | cons y ys ih =>
    intro hz
    rw [insertEntry] at hz
    split at hz
    · rcases List.mem_cons.mp hz with h | h
      · exact Or.inr (List.mem_cons.mpr (Or.inl h))
      · rcases ih h with h' | h'
        · exact Or.inl h'
        · exact Or.inr (List.mem_cons.mpr (Or.inr h'))
    · rcases List.mem_cons.mp hz with h | h
      · exact Or.inl h
      · exact Or.inr h

theorem insertEntry_perm {V : Type} (x : SEntry V) :
    ∀ l : List (SEntry V), (insertEntry x l).Perm (x :: l) := by
  intro l
  induction l with
  | nil => exact List.Perm.refl _
  | cons y ys ih =>
    rw [insertEntry]
    split
    · exact (ih.cons y).trans (List.Perm.swap x y ys)
    · exact List.Perm.refl _

theorem foldl_insertEntry_perm {V : Type} :
    ∀ (l acc : List (SEntry V)),
      (l.foldl (fun a x => insertEntry x a) acc).Perm (acc ++ l) := by
  intro l
  induction l with
  | nil => intro acc; simp
  | cons x rest ih =>
    intro acc
    simp only [List.foldl_cons]
    have h1 := ih (insertEntry x acc)
    have h2 : ((insertEntry x acc) ++ rest).Perm ((x :: acc) ++ rest) :=
      (insertEntry_perm x acc).append_right rest
    have h3 : ((x :: acc) ++ rest).Perm (acc ++ x :: rest) := by
      rw [List.cons_append]
      exact List.perm_middle.symm
    exact (h1.trans h2).trans h3

theorem entryLexLt_pri_le {V : Type} {a b : SEntry V} (h : entryLexLt a b) :
    a.pri ≤ b.pri := by
  rcases h with h | ⟨h, _⟩
  · exact le_of_lt h
  · exact le_of_eq h

theorem insertEntry_pairwise {V : Type} (x : SEntry V) :
    ∀ l : List (SEntry V), List.Pairwise entryLexLt l →
      (∀ y ∈ l, y.idx < x.idx) → List.Pairwise entryLexLt (insertEntry x l) := by
  intro l
  induction l with
  | nil =>
    intro _ _
    simp [insertEntry]
  | cons y ys ih =>
    intro hp hidx
    rw [List.pairwise_cons] at hp
    obtain ⟨hy, hys⟩ := hp
    by_cases hle : y.pri ≤ x.pri
    · rw [insertEntry, if_pos hle, List.pairwise_cons]
      constructor
      · intro z hz
        rcases mem_insertEntry x z ys hz with rfl | hzys
        · rcases lt_or_eq_of_le hle with h | h
          · exact Or.inl h
          · exact Or.inr ⟨h, hidx y (List.mem_cons_self y ys)⟩
        · exact hy z hzys
      · exact ih hys (fun w hw => hidx w (List.mem_cons_of_mem y hw))
    · rw [insertEntry, if_neg hle, List.pairwise_cons]
      have hgt : x.pri < y.pri := lt_of_not_le hle
      constructor
      · intro z hz
        rcases List.mem_cons.mp hz with rfl | hzys
        · exact Or.inl hgt
        · exact Or.inl (lt_of_lt_of_le hgt (entryLexLt_pri_le (hy z hzys)))
      · exact List.pairwise_cons.mpr ⟨hy, hys⟩

theorem foldl_insertEntry_pairwise {V : Type} :
    ∀ (l acc : List (SEntry V)),
      List.Pairwise entryLexLt acc →
      (∀ y ∈ acc, ∀ x ∈ l, y.idx < x.idx) →
      List.Pairwise (fun a b => a.idx < b.idx) l →
      List.Pairwise entryLexLt (l.foldl (fun a x => insertEntry x a) acc) := by
  intro l
  induction l with
  | nil =>
    intro acc hacc _ _
    simpa using hacc
  | cons x rest ih =>
    intro acc hacc hcross hl
    rw [List.pairwise_cons] at hl
    obtain ⟨hxrest, hrest⟩ := hl
    simp only [List.foldl_cons]
    apply ih (insertEntry x acc)
    · exact insertEntry_pairwise x acc hacc
        (fun y hy => hcross y hy x (List.mem_cons_self x rest))
    · intro y hy z hz
      rcases mem_insertEntry x y acc hy with rfl | hyacc
      · exact hxrest z hz
      · exact hcross y hyacc z (List.mem_cons_of_mem x hz)
    · exact hrest

theorem resolveEntries_idx_le {V : Type} (s : Obj V) :
    ∀ (prog : List (ProgEntry V)) (i : Nat) (x : SEntry V),
      x ∈ resolveEntries s prog i → i ≤ x.idx := by
  intro prog
  induction prog with
  | nil =>
    intro i x hx
    simp [resolveEntries] at hx
  | cons e rest ih =>
    intro i x hx
    rw [resolveEntries] at hx
    rcases List.mem_cons.mp hx with rfl | hx'
    · exact Nat.le_refl i
    · exact Nat.le_trans (Nat.le_succ i) (ih (i + 1) x hx')

theorem resolveEntries_pairwise_idx {V : Type} (s : Obj V) :
    ∀ (prog : List (ProgEntry V)) (i : Nat),
      List.Pairwise (fun a b => a.idx < b.idx) (resolveEntries s prog i) := by
  intro prog
  induction prog with
  | nil => intro i; simp [resolveEntries]
  | cons e rest ih =>
    intro i
    rw [resolveEntries]
    refine List.Pairwise.cons ?_ (ih (i + 1))
    intro z hz
    have hz' := resolveEntries_idx_le s rest (i + 1) z hz
    show i < z.idx
    omega

theorem cget_counterObj (n : Int) : cget (counterObj n) = n := by
  simp [cget, counterObj, singleObj]

theorem invA_zero : InvA 0 machineA := by
  refine ⟨rfl, rfl, rfl, rfl, rfl, by decide, rfl, ?_, ?_⟩
  · show (machineA.history.records).getLast? = some (counterObj 0)
    simp [machineA, mkMachine, mkHistory, nextTick, beginTick, trimRecords,
      collectInputs, inputsObj, assign_emptyObj_left, assign_emptyObj_right, counterObj]
  · show machineA.history.nextState = counterObj 0
    simp [machineA, mkMachine, mkHistory, nextTick, beginTick, trimRecords,
      collectInputs, inputsObj, assign_emptyObj_left, assign_emptyObj_right, counterObj]

theorem stepInvA (n : Nat) (m : Machine Int) (hm : InvA n m) :
    (step m).2 = 1 ∧ InvA (n + 1) (step m).1 := by
  obtain ⟨prog, hist, ex⟩ := m
  obtain ⟨env, si, ins, ik, ini, recs, tk, ns, mh⟩ := hist
  obtain ⟨hprog, hex, hik, hins, hmh, htk, hlen, hlast, hns⟩ := hm
  dsimp only at hprog hex hik hins hmh htk hlen hlast hns
  subst hprog hex hik hins hmh htk hns
  have hnge : ¬ ((n : Int) + 1 < 1) := by omega
  rw [step, if_neg hnge, stepBody]
  have hcur : currentState ⟨env, si, [], [], ini, recs, (n : Int) + 1, counterObj n, none⟩
      = counterObj n := by
    simp [currentState, hlast]
  dsimp only
  rw [hcur]
  have hsort : sortEntries (resolveEntries (counterObj (n : Int)) [incEntry] 0)
      = [{ idx := 0, pri := 0, cond := incEntry.cond, action := incEntry.action }] := rfl
  rw [hsort, stepLoop]
  rw [if_neg (fun hc => hc.1 rfl)]
  rw [if_neg (by simp : ¬ ((none : Option (Obj Int)).isSome = true))]
  dsimp only [incEntry]
  rw [if_pos rfl]
  rw [hcur, cget_counterObj]
  dsimp only [runActRes, List.foldl, mutateTick]
  rw [stripKeys_nil, assign_counterObj]
  rw [stepLoop]
  dsimp only [finishTick]
  rw [if_neg (by omega : ¬ (0 + 1 = 0))]
  refine ⟨rfl, ?_⟩
  unfold InvA
  dsimp only [nextTick, beginTick, trimRecords, collectInputs, inputsObj, List.foldl]
  refine ⟨rfl, rfl, rfl, rfl, rfl, ?_, ?_, ?_, ?_⟩
  · push_cast
    ring
  · simp [hlen]
  · rw [List.getLast?_concat]
    norm_cast
  · rw [assign_emptyObj_right, List.getLast?_concat]
    simp only [Option.getD_some]
    rw [assign_emptyObj_left]
    norm_cast

theorem iterSteps_succ {V : Type} : ∀ (n : Nat) (m : Machine V),
    iterSteps (n + 1) m = (step (iterSteps n m)).1 := by
  intro n
  induction n with
  | zero => intro m; rfl
  | succ k ih =>
    intro m
    show iterSteps (k + 1) (step m).1 = (step (iterSteps (k + 1) m)).1
    rw [ih (step m).1]
    rfl

theorem invA_iter : ∀ n : Nat, InvA n (iterSteps n machineA) := by
  intro n
  induction n with
  | zero => exact invA_zero
  | succ k ih =>
    rw [iterSteps_succ]
    exact (stepInvA k _ ih).2

/- ------------------------------------------------------------------ -/
/- Claim theorems.                                                     -/
/- ------------------------------------------------------------------ -/

/-- C1: the claim says a rewind by more steps than there are retained
records forces a full reset (single record equal to the initial state,
tick 0) and never yields a negative tick.  The code instead guards on
the retention cap, so with the default unlimited cap a finite overshoot
leaves every record in place and drives the tick negative: rewinding a
two-record history by 3 keeps both records and sets the tick to -1. -/
theorem c1_rewind_overshoot_negative_tick :
    histTwo.tick = 2 ∧ histTwo.records.length = 2 ∧
    (rewind histTwo (some 3) none).tick = -1 ∧
    (rewind histTwo (some 3) none).records.length = 2 ∧
    (rewind histTwo (some 3) none).tick < 0 := by
  refine ⟨rfl, rfl, rfl, rfl, ?_⟩
  decide

/-- C2: run with the continue-past-quiescence flag set and unset are
equivalent: for every machine and every fuel bound the two loops reach
exactly the same result, because a zero-fire step always installs an
exit state before the loop condition is rechecked. -/
theorem c2_run_forever_flag_no_effect {V : Type} :
    ∀ (fuel : Nat) (m : Machine V), runAux true fuel m = runAux false fuel m := by
  intro fuel
  induction fuel with
  | zero => intro m; rfl
  | succ f ih =>
    intro m
    by_cases hx : m.exitState.isSome = true
    · simp [runAux, hx]
    · simp only [runAux, hx, if_false, Bool.false_eq_true]
      by_cases hz : (step m).2 = 0
      · have hs : (step m).1.exitState.isSome = true := step_snd_eq_zero_isSome m hz
        simp [hz, runAux_of_isSome true f (step m).1 hs]
      · simp [hz, ih]

/-- C3: the claim says the fourth step fires exactly one action, the
halt, and returns 1.  In the code the priority-0 increment is evaluated
before the priority-1 halt, so the fourth step fires both and
returns 2. -/
theorem c3_fourth_step_counterexample :
    (step (iterSteps 3 machineB)).2 = 2 ∧ (step (iterSteps 3 machineB)).2 ≠ 1 :=
  ⟨by decide, by decide⟩

/-- C3 amended: the fourth step of scenario B fires two actions, the
increment and then the halt, returns 2, records an exit state with
counter 3, and still commits the tick, so the committed current state
holds counter 4. -/
theorem c3_fourth_step_amended :
    (step (iterSteps 3 machineB)).2 = 2 ∧
    ((step (iterSteps 3 machineB)).1.exitState.map cget) = some 3 ∧
    cget (currentState (step (iterSteps 3 machineB)).1.history) = 4 :=
  ⟨by decide, by decide, by decide⟩

/-- C4: for a well-formed history (input key list as built by the
constructor, cap clamped to at least 1) and any input-bound key,
merging any action patch never changes the pending value of that key,
and a full tick - input collection at tick start, any sequence of
action patches, commit - commits a record whose value at that key is
exactly the input collected (and transformed) at the start of that
tick, whatever the patches tried to write. -/
theorem c4_input_binding_protection {V : Type} (h : History V) (ps : List (Obj V))
    (p : Obj V) (k : String)
    (hkeys : h.inputKeys = h.inputs.map (fun im => im.key))
    (hlim : limOk h.maxHistory = true)
    (hk : k ∈ h.inputKeys) :
    (mutateTick h p).nextState k = h.nextState k ∧
    currentState (nextTick (ps.foldl mutateTick (beginTick h))) k = collectInputs h k := by
  refine ⟨mutateTick_nextState_input h p k hk, ?_⟩
  obtain ⟨h1, h2, h3⟩ := foldl_mutateTick_spec ps (beginTick h)
  have hlim' : limOk (ps.foldl mutateTick (beginTick h)).maxHistory = true := by
    rw [h2]
    exact hlim
  rw [currentState_nextTick (ps.foldl mutateTick (beginTick h)) hlim']
  have hk' : k ∈ (beginTick h).inputKeys := hk
  rw [h3 k hk']
  exact beginTick_nextState_input h k (by rw [← hkeys]; exact hk)

/-- C4 witness: with key i bound to the counting property p through the
transform adding ten, a tick whose action tries to write 99 into i
still commits the freshly collected transformed input, here 12. -/
theorem c4_input_binding_protection_witness :
    ((mutateTick inputHist (singleObj "i" 99)).nextState "i" = inputHist.nextState "i" ∧
      currentState (nextTick ([singleObj "i" 99].foldl mutateTick (beginTick inputHist))) "i"
        = collectInputs inputHist "i") ∧
    currentState (nextTick ([singleObj "i" 99].foldl mutateTick (beginTick inputHist))) "i"
      = some 12 ∧
    collectInputs inputHist "i" = some 12 :=
  ⟨c4_input_binding_protection inputHist [singleObj "i" 99] (singleObj "i" 99) "i"
      rfl rfl (by decide),
    by decide, by decide⟩

/-- C5: the evaluation order step computes - the stable ascending sort
of the entries with priorities resolved once against the tick-start
state, functional priorities normalised to 0 on a missing result - is a
permutation of the resolved program in which every pair is strictly
ordered by priority, with ties strictly ordered by registration index:
ascending priority with registration order breaking ties. -/
theorem c5_priority_sort_stable {V : Type} (prog : List (ProgEntry V)) (s : Obj V) :
    (sortEntries (resolveEntries s prog 0)).Perm (resolveEntries s prog 0) ∧
    List.Pairwise entryLexLt (sortEntries (resolveEntries s prog 0)) := by
  constructor
  · have h := foldl_insertEntry_perm (resolveEntries s prog 0) []
    simpa [sortEntries] using h
  · unfold sortEntries
    apply foldl_insertEntry_pairwise (resolveEntries s prog 0) []
    · exact List.Pairwise.nil
    · intro y hy
      exact absurd hy (List.not_mem_nil y)
    · exact resolveEntries_pairwise_idx s prog 0

/-- C6: when the entry loop observes a tick counter different from the
one captured at tick start while no exit state is set, it returns at
once with the machine untouched and the value max 1 fired, skipping the
remaining entries; in particular the returned count is never 0. -/
theorem c6_midtick_rewind_abort {V : Type} (t0 : Int) (m : Machine V) (fired : Nat)
    (e : SEntry V) (rest : List (SEntry V))
    (htick : m.history.tick ≠ t0) (hexit : m.exitState = none) :
    stepLoop t0 m fired (e :: rest) = (m, max 1 fired) ∧
    0 < (stepLoop t0 m fired (e :: rest)).2 := by
  have hcond : m.history.tick ≠ t0 ∧ m.exitState.isNone = true := ⟨htick, by simp [hexit]⟩
  rw [stepLoop, if_pos hcond]
  exact ⟨rfl, lt_of_lt_of_le one_pos (le_max_left 1 fired)⟩

/-- C6 witness: a concrete mid-loop state whose history tick 5 differs
from the captured tick 4 aborts past its remaining entry and reports 1. -/
theorem c6_midtick_rewind_abort_witness :
    stepLoop 4 abortMachine 0 [abortEntry] = (abortMachine, max 1 0) ∧
    0 < (stepLoop 4 abortMachine 0 [abortEntry]).2 :=
  c6_midtick_rewind_abort 4 abortMachine 0 abortEntry [] (by decide) rfl

/-- C7: the claim says the tick equals 3 after three steps of scenario
A.  The constructor already commits the initial record as the first
tick, so after three steps the tick is 4. -/
theorem c7_tick_after_three_steps_counterexample :
    (iterSteps 3 machineA).history.tick = 4 ∧ (iterSteps 3 machineA).history.tick ≠ 3 :=
  ⟨by decide, by decide⟩

/-- C7 amended: in scenario A every step returns 1 and after n steps
the committed counter is n, but the tick is n + 1 and there are n + 1
records, because the constructor commits the initial record as the
first tick; under the default unlimited retention the record count thus
equals min(n + 1, limit). -/
theorem c7_scenario_a_amended (n : Nat) :
    (step (iterSteps n machineA)).2 = 1 ∧
    (iterSteps n machineA).history.tick = (n : Int) + 1 ∧
    (iterSteps n machineA).history.records.length = n + 1 ∧
    currentState (iterSteps n machineA).history = counterObj (n : Int) := by
  obtain ⟨hprog, hex, hik, hins, hmh, htk, hlen, hlast, hns⟩ := invA_iter n
  refine ⟨(stepInvA n _ (invA_iter n)).1, htk, hlen, ?_⟩
  unfold currentState
  rw [hlast]
  rfl

/-- C8: the claim (and the rewind doc) expects rewind(2) after five
committed ticks to retain 3 records with tick 3.  The splice keeps the
first n records instead of dropping the last n, so the code retains 2
records while the tick becomes 3, desynchronising records and tick;
the unbounded rewind behaves as documented. -/
theorem c8_rewind_two_after_five_ticks_bug :
    machineA4.history.tick = 5 ∧ machineA4.history.records.length = 5 ∧
    (rewind machineA4.history (some 2) none).records.length = 2 ∧
    (rewind machineA4.history (some 2) none).tick = 3 ∧
    (rewind machineA4.history (some 2) none).records.length ≠ 3 ∧
    (rewind machineA4.history none none).records = [machineA4.history.initialState] ∧
    (rewind machineA4.history none none).tick = 0 :=
  ⟨by decide, by decide, by decide, by decide, by decide, rfl, by decide⟩

/-- C9: the claim says reset(newInitialState) replaces the initial
state, so that later full rewinds restore the new one.  The code only
overlays the new state onto the rewound record and keeps the stored
initial state, so a later unbounded rewind restores the original:
after reset to counter 1, clear() brings back counter 0. -/
theorem c9_reset_keeps_original_initial_counterexample :
    cget (currentState machineReset.history) = 1 ∧
    machineReset.history.tick = 0 ∧
    machineReset.exitState = none ∧
    cget (currentState (rewind machineReset.history none none)) = 0 ∧
    cget (currentState (rewind machineReset.history none none)) ≠ 1 :=
  ⟨by decide, by decide, rfl, by decide, by decide⟩

/-- C9 amended: reset clears the exit state, rewinds to tick 0, and
overwrites the restored record with the original initial state merged
with the supplied one, so the current state reflects the new initial
state; but the stored initial state itself is unchanged, so later full
rewinds restore the original initial state. -/
theorem c9_reset_amended {V : Type} (m : Machine V) (ini : Obj V) :
    (reset m (some ini)).exitState = none ∧
    (reset m (some ini)).history.tick = 0 ∧
    currentState (reset m (some ini)).history
      = assign (assign emptyObj m.history.initialState) ini ∧
    (reset m (some ini)).history.initialState = m.history.initialState :=
  ⟨rfl, rfl, rfl, rfl⟩

/-- C10: once an action has set an exit state mid-tick, the entry loop
runs no further entry and falls through to the commit: the pending
state, including mutations staged earlier in the tick, becomes the
current state, while the recorded exit state is left as the action set
it, so the two can differ. -/
theorem c10_exit_midtick_commits {V : Type} (t0 : Int) (m : Machine V) (fired : Nat)
    (l : List (SEntry V)) (hx : m.exitState.isSome = true) (hf : fired ≠ 0)
    (hl : limOk m.history.maxHistory = true) :
    stepLoop t0 m fired l = finishTick m fired ∧
    (stepLoop t0 m fired l).1.exitState = m.exitState ∧
    currentState (stepLoop t0 m fired l).1.history = m.history.nextState := by
  have he := stepLoop_of_exit t0 m fired l hx
  refine ⟨he, ?_, ?_⟩
  · rw [he]
    simp [finishTick, hf]
  · rw [he]
    simp only [finishTick, hf, if_neg]
    exact currentState_nextTick m.history hl

/-- C10 witness: a mid-loop state with exit state counter 3 and staged
counter 4 commits the staged state; afterwards the current state holds
counter 4 and the exit state still holds counter 3, so they differ. -/
theorem c10_exit_midtick_commits_witness :
    (stepLoop 7 exitMidMachine 1 [] = finishTick exitMidMachine 1 ∧
      (stepLoop 7 exitMidMachine 1 []).1.exitState = exitMidMachine.exitState ∧
      currentState (stepLoop 7 exitMidMachine 1 []).1.history
        = exitMidMachine.history.nextState) ∧
    cget (currentState (stepLoop 7 exitMidMachine 1 []).1.history) = 4 ∧
    ((stepLoop 7 exitMidMachine 1 []).1.exitState.map cget) = some 3 :=
  ⟨c10_exit_midtick_commits 7 exitMidMachine 1 [] rfl (by decide) rfl,
    by decide, by decide⟩

end WhenTS
